import Mathlib

/-!
Verification of the AutoTransform execution pipeline and scheduling engine.

This file shallowly embeds the Python sources:
  * `src/python/autotransform/batcher/codeowners.py` (`CodeownersBatcher.batch`)
  * `src/common/package.py` (`AutoTransformPackage.run`, `to_json`, `from_json`,
    `PackageConfiguration`)
  * `src/python/autotransform/util/schedule.py` (`SchemaScheduleSettings`,
    `ScheduledSchema`, `Schedule`)
and proves the specified properties about the embedded definitions.

Conventions of the embedding:
  * Python machine-free integers are `Int` (or `Nat` where the source value is
    provably non-negative); Python `//` and `%` are floor division and the
    matching modulus, written `pyFloorDiv` / `pyMod`; `int(x)` applied to a real
    quotient truncates toward zero, written `Int.tdiv` for `int(a / b)`.
  * Python dicts keep insertion order, so they are association lists.
  * `deepcopy` is the identity: Lean values are immutable, value semantics
    already gives each batch an independent copy.
  * Exceptions (`assert`, `ValueError`, `ZeroDivisionError`, `IndexError`,
    `KeyError`) are `Except String`.
  * Side effects (transformer mutation, command execution, runner dispatch)
    are recorded as events in an explicit trace returned by the embedded
    functions.
-/

set_option autoImplicit false

namespace AutoTransform

/-- Python floor division `a // b` (rounds toward negative infinity). -/
def pyFloorDiv (a b : Int) : Int := Int.fdiv a b

/-- Python modulus `a % b`, defined by `a % b = a - b * (a // b)`; for `b ≠ 0`
this matches CPython (result has the sign of `b`). -/
def pyMod (a b : Int) : Int := a - b * pyFloorDiv a b

/-- Python `divmod(a, b) = (a // b, a % b)`. -/
def pyDivMod (a b : Int) : Int × Int := (pyFloorDiv a b, pyMod a b)

/-- Python `math.ceil(a / b)` for integers `a ≥ 0`, `b > 0`:
`ceil(a / b) = (a + b - 1) // b`. -/
def ceilDiv (a b : Nat) : Nat := (a + b - 1) / b

/-- Python `range(0, stop, step)` for `step ≥ 1`: the multiples of `step`
below `stop`, of which there are `ceil(stop / step)`. -/
def pyRangeStep (stop step : Nat) : List Nat :=
  (List.range (ceilDiv stop step)).map (fun k => k * step)

/-- Python slice `lst[start:stop]` for `0 ≤ start ≤ stop` (out-of-range ends
are clamped, as in Python). -/
def pySlice {α : Type} (l : List α) (start stop : Nat) : List α :=
  (l.drop start).take (stop - start)

/-- The slicing comprehension `[lst[i:i+cs] for i in range(0, len(lst), cs)]`
(for `cs ≥ 1`): contiguous chunks of size `cs` in original order, the last
chunk holding the remainder. -/
def pyChunks {α : Type} (cs : Nat) (l : List α) : List (List α) :=
  (pyRangeStep l.length cs).map (fun i => pySlice l i (i + cs))

/-! ## CodeownersBatcher (src/python/autotransform/batcher/codeowners.py) -/

/-- The kinds of owner entries produced by the external `codeowners` library:
`CodeOwners.of` returns a list of `(type, owner)` tuples with type
`"USERNAME"`, `"TEAM"` or `"EMAIL"`. -/
inductive OwnerType where
  | USERNAME : OwnerType
  | TEAM : OwnerType
  | EMAIL : OwnerType
deriving DecidableEq, Repr

/-- A `FileItem`: an item representing one file, identified by its path
(`item.get_path()`). -/
structure FileItem where
  path : String
deriving DecidableEq, Repr

/-- Batch metadata, a Python dict. The batcher touches only the keys
`"team_reviewers"` and `"reviewers"` (string lists); `other` carries the
remaining entries untouched. `none` in a field models an absent key. -/
structure Metadata where
  team_reviewers : Option (List String) := none
  reviewers : Option (List String) := none
  other : List (String × String) := []
deriving DecidableEq, Repr

/-- The empty dict `{}` that `self.metadata or {}` falls back to. -/
def emptyMetadata : Metadata := {}

/-- A `Batch` as built by the batcher: a dict with `"items"`, `"title"` and an
optional `"metadata"` key (the unowned path omits it when the batcher has no
configured metadata). -/
structure Batch where
  items : List FileItem
  title : String
  metadata : Option Metadata := none
deriving DecidableEq, Repr

/-- Configuration fields of `CodeownersBatcher`. `pfx` embeds the source field
named `prefix`; `codeowners_location` is replaced by the resolved ownership
function passed to `batch` (reading and parsing the CODEOWNERS file is
external I/O). -/
structure CodeownersBatcher where
  pfx : String
  max_batch_size : Option Nat := none
  metadata : Option Metadata := none

/-- Python `str.removeprefix("@")`: drop one leading `"@"` if present. -/
def stripLeadingAt (s : String) : String :=
  match s with
  | ⟨'@' :: rest⟩ => ⟨rest⟩
  | s => s

/-- One step of the owner-dictionary building loop: append `item` to the list
under `owner`, creating the entry at the end if absent (Python dicts preserve
insertion order). -/
def addOwned (groups : List (String × List FileItem)) (owner : String)
    (item : FileItem) : List (String × List FileItem) :=
  match groups with
  | [] => [(owner, [item])]
  | (k, its) :: rest =>
      if k = owner then (k, its ++ [item]) :: rest
      else (k, its) :: addOwned rest owner item

/-- The grouping state `(team_owners, individual_owners, no_owners)`. -/
structure Groups where
  team_owners : List (String × List FileItem) := []
  individual_owners : List (String × List FileItem) := []
  no_owners : List FileItem := []

/-- One iteration of the partition loop (codeowners.py lines 65-84): items with
no owner go to `no_owners`; otherwise only the first owner tuple is used, a
`USERNAME` owner goes to `individual_owners` and a `TEAM` owner to
`team_owners` (an `EMAIL` owner matches neither branch and the item is
dropped). -/
def groupStep (codeownersOf : String → List (OwnerType × String))
    (g : Groups) (item : FileItem) : Groups :=
  match codeownersOf item.path with
  | [] => { g with no_owners := g.no_owners ++ [item] }
  | owner_tuple :: _ =>
      match owner_tuple.1 with
      | OwnerType.USERNAME =>
          { g with individual_owners :=
              addOwned g.individual_owners (stripLeadingAt owner_tuple.2) item }
      | OwnerType.TEAM =>
          { g with team_owners :=
              addOwned g.team_owners (stripLeadingAt owner_tuple.2) item }
      | OwnerType.EMAIL => g

/-- Build the owner dictionaries from the item sequence. -/
def buildGroups (codeownersOf : String → List (OwnerType × String))
    (items : List FileItem) : Groups :=
  items.foldl (groupStep codeownersOf) {}

/-- The split condition `self.max_batch_size is not None and len(group) >
self.max_batch_size`. -/
def isSplit (max_batch_size : Option Nat) (len : Nat) : Bool :=
  match max_batch_size with
  | some m => len > m
  | none => false

/-- The chunking step shared by the three emission loops (codeowners.py
lines 91-101, 118-129, 146-156): returns `(num_chunks, item_chunks)`. -/
def makeChunks (max_batch_size : Option Nat) (group : List FileItem) :
    Nat × List (List FileItem) :=
  if isSplit max_batch_size group.length then
    let m := max_batch_size.getD 0
    let num_chunks := ceilDiv group.length m
    let chunk_size := ceilDiv group.length num_chunks
    (num_chunks, pyChunks chunk_size group)
  else
    (1, [group])

/-- The numbered title `f"[{i}/{num_chunks}]{self.prefix} {owner}"`. -/
def numberedTitle (i num_chunks : Nat) (pfx owner : String) : String :=
  "[" ++ toString i ++ "/" ++ toString num_chunks ++ "]" ++ pfx ++ " " ++ owner

/-- The initial title: numbered `[1/num_chunks]` in the split branch, plain
`f"{self.prefix} {owner}"` otherwise. -/
def initialTitle (split : Bool) (num_chunks : Nat) (pfx owner : String) : String :=
  if split then numberedTitle 1 num_chunks pfx owner else pfx ++ " " ++ owner

/-- The injection on a team chunk's metadata copy (codeowners.py lines
106-109): append the owner when a `team_reviewers` list exists and lacks it;
otherwise (key absent, or owner already present) assign the singleton list. -/
def addTeamReviewer (m : Metadata) (owner : String) : Metadata :=
  match m.team_reviewers with
  | some l =>
      if owner ∉ l then { m with team_reviewers := some (l ++ [owner]) }
      else { m with team_reviewers := some [owner] }
  | none => { m with team_reviewers := some [owner] }

/-- The injection on an individual chunk's metadata copy (codeowners.py lines
134-137), against the `reviewers` key. -/
def addReviewer (m : Metadata) (owner : String) : Metadata :=
  match m.reviewers with
  | some l =>
      if owner ∉ l then { m with reviewers := some (l ++ [owner]) }
      else { m with reviewers := some [owner] }
  | none => { m with reviewers := some [owner] }

/-- The emission loop `for chunk_items in item_chunks`: build a batch for each
chunk with the running title, then advance `i` and recompute the title. -/
def emitChunks (mkBatch : List FileItem → String → Batch) (pfx owner : String)
    (num_chunks : Nat) : Nat → String → List (List FileItem) → List Batch
  | _, _, [] => []
  | i, title, chunk :: rest =>
      mkBatch chunk title ::
        emitChunks mkBatch pfx owner num_chunks (i + 1)
          (numberedTitle (i + 1) num_chunks pfx owner) rest

/-- The batches emitted for one team owner's group (codeowners.py lines 89-113). -/
def teamGroupBatches (cfg : CodeownersBatcher) (owner : String)
    (items : List FileItem) : List Batch :=
  let nc := makeChunks cfg.max_batch_size items
  emitChunks
    (fun chunk title =>
      { items := chunk, title := title,
        metadata := some (addTeamReviewer (cfg.metadata.getD emptyMetadata) owner) })
    cfg.pfx owner nc.1 1
    (initialTitle (isSplit cfg.max_batch_size items.length) nc.1 cfg.pfx owner) nc.2

/-- The batches emitted for one individual owner's group (codeowners.py lines
116-141). -/
def individualGroupBatches (cfg : CodeownersBatcher) (owner : String)
    (items : List FileItem) : List Batch :=
  let nc := makeChunks cfg.max_batch_size items
  emitChunks
    (fun chunk title =>
      { items := chunk, title := title,
        metadata := some (addReviewer (cfg.metadata.getD emptyMetadata) owner) })
    cfg.pfx owner nc.1 1
    (initialTitle (isSplit cfg.max_batch_size items.length) nc.1 cfg.pfx owner) nc.2

/-- The unowned emission path (codeowners.py lines 144-166): emit one batch per
chunk — metadata only when the batcher has configured metadata — and then,
after the loop, append the loop variable `batch` (the batch of the final
chunk) a second time (line 166). -/
def unownedBatches (cfg : CodeownersBatcher) (items : List FileItem) : List Batch :=
  let nc := makeChunks cfg.max_batch_size items
  let emitted :=
    emitChunks
      (fun chunk title => { items := chunk, title := title, metadata := cfg.metadata })
      cfg.pfx "unowned" nc.1 1
      (initialTitle (isSplit cfg.max_batch_size items.length) nc.1 cfg.pfx "unowned") nc.2
  emitted ++
    (match emitted.getLast? with
     | some b => [b]
     | none => [])

/-- The method `CodeownersBatcher.batch`: partition by owner, then emit team batches,
individual batches and the unowned batches, in that order. -/
def CodeownersBatcher.batch (cfg : CodeownersBatcher)
    (codeownersOf : String → List (OwnerType × String))
    (items : List FileItem) : List Batch :=
  let g := buildGroups codeownersOf items
  (g.team_owners.flatMap fun p => teamGroupBatches cfg p.1 p.2) ++
  (g.individual_owners.flatMap fun p => individualGroupBatches cfg p.1 p.2) ++
  (if g.no_owners.isEmpty then [] else unownedBatches cfg g.no_owners)

/-! ## AutoTransformPackage (src/common/package.py) -/

/-- Modelled from the spec: the validation severity levels, a totally ordered
set NONE < WARNING < ERROR (spec §3); `validator/base.py` that defines
`ValidationResultLevel` is not among the given sources. -/
inductive ValidationResultLevel where
  | NONE : ValidationResultLevel
  | WARNING : ValidationResultLevel
  | ERROR : ValidationResultLevel
deriving DecidableEq, Repr

/-- Modelled from the spec: the numeric value of each level, realizing the
total order NONE < WARNING < ERROR. -/
def ValidationResultLevel.toNat : ValidationResultLevel → Nat
  | ValidationResultLevel.NONE => 0
  | ValidationResultLevel.WARNING => 1
  | ValidationResultLevel.ERROR => 2

/-- The strict comparison `a < b` on levels used by the gate
`validation_result["level"] > self.config.allowed_validation_level`. -/
def levelLt (a b : ValidationResultLevel) : Bool := a.toNat < b.toNat

/-- A validation result: the severity level plus diagnostic detail. -/
structure ValidationResult where
  level : ValidationResultLevel
  message : String := ""
deriving DecidableEq, Repr

/-- The `PackageConfiguration` holds the `allowed_validation_level` threshold
(defaulting to NONE, the strictest). -/
structure PackageConfiguration where
  allowed_validation_level : ValidationResultLevel := ValidationResultLevel.NONE
deriving DecidableEq, Repr

/-- A batch as returned by a batcher to `run` (package.py line 83): `"files"`
holds indices into `valid_files`, to be resolved on line 84. `M` is the
metadata type, opaque to `run`. -/
structure RawBatch (M : Type) where
  files : List Int
  metadata : M
deriving DecidableEq, Repr

/-- A processed batch (package.py line 84): resolved files plus metadata (the
rebuilt dict keeps only these two keys). -/
structure ProcBatch (F M : Type) where
  files : List F
  metadata : M
deriving DecidableEq, Repr

/-- Observable side effects of `run`: a transformer application to a file, or
a command execution against a processed batch. -/
inductive RunEvent (F M C : Type) where
  | transform : F → RunEvent F M C
  | command : C → ProcBatch F M → RunEvent F M C
deriving DecidableEq, Repr

/-- The command executions contained in a trace, in order. -/
def commandEvents {F M C : Type} : List (RunEvent F M C) → List (C × ProcBatch F M)
  | [] => []
  | RunEvent.command c b :: rest => (c, b) :: commandEvents rest
  | RunEvent.transform _ :: rest => commandEvents rest

/-- An `AutoTransformPackage`: one Input (modelled by the file list its
`get_files()` returns; the `CachedFile` wrapper is the identity here), the
filter predicates, the batcher function, the validators as functions from a
processed batch to a result, the commands (opaque, recorded in the trace),
and the configuration. `F` = file type, `M` = batch metadata, `C` = command. -/
structure AutoTransformPackage (F M C : Type) where
  input : List F
  filters : List (F → Bool)
  batcher : List F → List (RawBatch M)
  validators : List (ProcBatch F M → ValidationResult)
  commands : List C
  config : PackageConfiguration := {}

/-- Python list indexing `lst[i]`, with negative indices counting from the
end; out of range yields `none` (an `IndexError`). -/
def pyIndex {α : Type} (l : List α) (i : Int) : Option α :=
  let j := if i < 0 then (l.length : Int) + i else i
  if 0 ≤ j then l[j.toNat]? else none

/-- The filtering loop of `run` (package.py lines 73-82): keep the files on
which every filter's `is_valid` holds, preserving order (the inner loop
short-circuits on the first failing filter, as `List.all` does). -/
def validFiles {F M C : Type} (p : AutoTransformPackage F M C) : List F :=
  p.input.filter fun f => p.filters.all fun flt => flt f

/-- The batch rebuilding comprehension of `run` (package.py line 84): resolve
each index through `valid_files`, keeping the batcher's metadata; a bad index
is an `IndexError` (`none`). -/
def resolveBatches {F M C : Type} (p : AutoTransformPackage F M C)
    (valid_files : List F) : Option (List (ProcBatch F M)) :=
  (p.batcher valid_files).mapM fun b =>
    (b.files.mapM (pyIndex valid_files)).map fun fs => ProcBatch.mk fs b.metadata

/-- The validator loop for one batch (package.py lines 88-91): evaluate the
validators in order and return the first result whose level exceeds the
threshold (the `ValidationError` raised), if any. -/
def runValidators {F M : Type} (validators : List (ProcBatch F M → ValidationResult))
    (threshold : ValidationResultLevel) (b : ProcBatch F M) : Option ValidationResult :=
  match validators with
  | [] => none
  | v :: rest =>
      let validation_result := v b
      if levelLt threshold validation_result.level then some validation_result
      else runValidators rest threshold b

/-- The per-batch loop of `run` (package.py lines 85-93): for each batch in
order, transform every file, then validate — a result above the threshold
aborts the whole run carrying that result (commands of this and all later
batches never execute) — then execute every command. Returns the event trace
and the aborting result, if any. -/
def runBatches {F M C : Type} (p : AutoTransformPackage F M C) :
    List (ProcBatch F M) → List (RunEvent F M C) × Option ValidationResult
  | [] => ([], none)
  | b :: rest =>
      let tevents := b.files.map RunEvent.transform
      match runValidators p.validators p.config.allowed_validation_level b with
      | some r => (tevents, some r)
      | none =>
          let cevents := p.commands.map fun c => RunEvent.command c b
          let res := runBatches p rest
          (tevents ++ cevents ++ res.1, res.2)

/-- The method `AutoTransformPackage.run` (package.py lines 72-93): filter the input
files, batch them, resolve batch file indices (an out-of-range index raises
`IndexError`), then process batches sequentially. The result carries the
event trace and `some r` when the run aborted with `ValidationError(r)`. -/
def AutoTransformPackage.run {F M C : Type} (p : AutoTransformPackage F M C) :
    Except String (List (RunEvent F M C) × Option ValidationResult) :=
  match resolveBatches p (validFiles p) with
  | none => Except.error "IndexError"
  | some batches => Except.ok (runBatches p batches)

/-! ## Package serialization (src/common/package.py to_json / from_json) -/

/-- JSON values, the image of `json.dumps`/`json.loads` (`json.dumps ∘
json.loads` is the identity on these trees, so the string layer is elided). -/
inductive Json where
  | num : Int → Json
  | str : String → Json
  | arr : List Json → Json
  | obj : List (String × Json) → Json

/-- Dict lookup `data[k]` / `k in data`: first binding of the key. -/
def lookupKey (data : List (String × Json)) (k : String) : Option Json :=
  match data with
  | [] => none
  | (k2, v) :: rest => if k2 = k then some v else lookupKey rest k

/-- Modelled from the spec: `ValidationResultLevel.has_value` inverted — the
enum member with a given numeric value, if any (`validator/base.py` is not
among the given sources; the spec fixes the three-valued ordered enum). -/
def ValidationResultLevel.ofValue : Int → Option ValidationResultLevel
  | 0 => some ValidationResultLevel.NONE
  | 1 => some ValidationResultLevel.WARNING
  | 2 => some ValidationResultLevel.ERROR
  | _ => none

/-- Modelled from the spec: `ValidationResultLevel._member_map_` — the enum
member with a given name, if any. -/
def ValidationResultLevel.ofName : String → Option ValidationResultLevel
  | "NONE" => some ValidationResultLevel.NONE
  | "WARNING" => some ValidationResultLevel.WARNING
  | "ERROR" => some ValidationResultLevel.ERROR
  | _ => none

/-- The method `PackageConfiguration.bundle` (package.py lines 25-28): the one-key dict;
the enum member serializes as its numeric value under `json.dumps`. -/
def PackageConfiguration.bundle (c : PackageConfiguration) : Json :=
  Json.obj [("allowed_validation_level", Json.num c.allowed_validation_level.toNat)]

/-- The method `PackageConfiguration.from_data` (package.py lines 30-39): absent key
defaults to NONE; a numeric value that `has_value` accepts is kept as is; a
string must be a member name; anything else fails the `assert`. -/
def PackageConfiguration.from_data (data : List (String × Json)) :
    Except String PackageConfiguration :=
  match lookupKey data "allowed_validation_level" with
  | none => Except.ok ⟨ValidationResultLevel.NONE⟩
  | some (Json.num n) =>
      match ValidationResultLevel.ofValue n with
      | some lvl => Except.ok ⟨lvl⟩
      | none => Except.error "AssertionError"
  | some (Json.str s) =>
      match ValidationResultLevel.ofName s with
      | some lvl => Except.ok ⟨lvl⟩
      | none => Except.error "AssertionError"
  | some _ => Except.error "AssertionError"

/-- A component kind's serialization interface: `bundle` is the component's
`bundle()` method, `get` is its factory's `get`. The factories and component
classes live outside the given sources; C9's hypothesis is exactly the
spec's premise that each component's serialize/deserialize pair is faithful. -/
structure ComponentCodec (α : Type) where
  bundle : α → Json
  get : Json → α

/-- The component bundle of a package, one field per `to_json` key. `I`, `B`,
`T`, `Fl`, `V`, `C` are the component types. -/
structure SerialPackage (I B T Fl V C : Type) where
  input : I
  batcher : B
  transformer : T
  filters : List Fl
  validators : List V
  commands : List C
  config : PackageConfiguration

/-- The method `AutoTransformPackage.to_json` (package.py lines 95-109), as the JSON tree
`json.dumps` renders. -/
def SerialPackage.to_json {I B T Fl V C : Type} (aI : ComponentCodec I)
    (aB : ComponentCodec B) (aT : ComponentCodec T) (aF : ComponentCodec Fl)
    (aV : ComponentCodec V) (aC : ComponentCodec C) (p : SerialPackage I B T Fl V C) :
    Json :=
  Json.obj [
    ("input", aI.bundle p.input),
    ("batcher", aB.bundle p.batcher),
    ("transformer", aT.bundle p.transformer),
    ("filters", Json.arr (p.filters.map aF.bundle)),
    ("validators", Json.arr (p.validators.map aV.bundle)),
    ("commands", Json.arr (p.commands.map aC.bundle)),
    ("config", p.config.bundle)]

/-- Lookup `package[k]`, raising `KeyError` when the key is missing. -/
def getKey (package : List (String × Json)) (k : String) : Except String Json :=
  match lookupKey package k with
  | some v => Except.ok v
  | none => Except.error "KeyError"

/-- Iterating `package[k]` as a list, as the comprehensions on package.py
lines 119-121 do. -/
def getArr (package : List (String × Json)) (k : String) :
    Except String (List Json) :=
  match getKey package k with
  | Except.ok (Json.arr l) => Except.ok l
  | Except.ok _ => Except.error "TypeError"
  | Except.error e => Except.error e

/-- Lookup of `package["config"]` as a dict for `PackageConfiguration.from_data`. -/
def getObj (package : List (String × Json)) (k : String) :
    Except String (List (String × Json)) :=
  match getKey package k with
  | Except.ok (Json.obj l) => Except.ok l
  | Except.ok _ => Except.error "TypeError"
  | Except.error e => Except.error e

/-- The method `AutoTransformPackage.from_json` (package.py lines 111-125): parse the
JSON tree, look up each key, run every component bundle through its factory,
and rebuild the configuration. -/
def SerialPackage.from_json {I B T Fl V C : Type} (aI : ComponentCodec I)
    (aB : ComponentCodec B) (aT : ComponentCodec T) (aF : ComponentCodec Fl)
    (aV : ComponentCodec V) (aC : ComponentCodec C) (j : Json) :
    Except String (SerialPackage I B T Fl V C) :=
  match j with
  | Json.obj package =>
      match getKey package "input", getKey package "batcher",
          getKey package "transformer", getArr package "filters",
          getArr package "validators", getArr package "commands",
          getObj package "config" with
      | Except.ok inputB, Except.ok batcherB, Except.ok transformerB,
          Except.ok filtersB, Except.ok validatorsB, Except.ok commandsB,
          Except.ok configB =>
          match PackageConfiguration.from_data configB with
          | Except.ok config =>
              Except.ok
                { input := aI.get inputB, batcher := aB.get batcherB,
                  transformer := aT.get transformerB,
                  filters := filtersB.map aF.get,
                  validators := validatorsB.map aV.get,
                  commands := commandsB.map aC.get, config := config }
          | Except.error e => Except.error e
      | Except.error e, _, _, _, _, _, _ => Except.error e
      | _, Except.error e, _, _, _, _, _ => Except.error e
      | _, _, Except.error e, _, _, _, _ => Except.error e
      | _, _, _, Except.error e, _, _, _ => Except.error e
      | _, _, _, _, Except.error e, _, _ => Except.error e
      | _, _, _, _, _, Except.error e, _ => Except.error e
      | _, _, _, _, _, _, Except.error e => Except.error e
  | _ => Except.error "TypeError"

/-! ## Scheduler (src/python/autotransform/util/schedule.py) -/

/-- The enum `RepeatSetting`: daily or weekly cadence. -/
inductive RepeatSetting where
  | DAILY : RepeatSetting
  | WEEKLY : RepeatSetting
deriving DecidableEq, Repr

/-- The enum `SchemaType`: how a scheduled schema is referenced. -/
inductive SchemaType where
  | BUILDER : SchemaType
  | FILE : SchemaType
deriving DecidableEq, Repr

/-- Modelled from the spec: the shard filter injected before dispatch carries
`(num_shards, valid_shard)` (§4.5 step c); the concrete `ShardFilter` class
and the filter factory are outside the given sources. -/
structure ShardFilter where
  num_shards : Int
  valid_shard : Int
deriving DecidableEq, Repr

/-- The settings `SchemaScheduleSettings`: cadence, hour of day, optional day of week,
optional shard filter. -/
structure SchemaScheduleSettings where
  repeats : RepeatSetting
  hour_of_day : Int
  day_of_week : Option Int := none
  sharding : Option ShardFilter := none
deriving DecidableEq, Repr

/-- The method `SchemaScheduleSettings.should_run` (schedule.py lines 74-87): the hour
must match, and either the cadence is daily or the day matches. A `None`
`day_of_week` compares unequal to every integer, as in Python. -/
def SchemaScheduleSettings.should_run (s : SchemaScheduleSettings)
    (hour_of_day day_of_week : Int) : Bool :=
  s.hour_of_day == hour_of_day &&
    (s.repeats == RepeatSetting.DAILY ||
      match s.day_of_week with
      | some d => d == day_of_week
      | none => false)

/-- The decoded-JSON input of `SchemaScheduleSettings.from_data`: the dict's
fields with their decoded types (other keys of the sharding dict, such as the
filter name, play no role in the given sources). -/
structure ShardingData where
  num_shards : Int
deriving DecidableEq, Repr

/-- The decoded-JSON input of `SchemaScheduleSettings.from_data`. -/
structure ScheduleSettingsData where
  repeats : String
  hour_of_day : Int
  day_of_week : Option Int := none
  sharding : Option ShardingData := none
deriving DecidableEq, Repr

/-- Parsing `RepeatSetting(data["repeats"])`: a `ValueError` on unknown values. -/
def parseRepeats : String → Except String RepeatSetting
  | "daily" => Except.ok RepeatSetting.DAILY
  | "weekly" => Except.ok RepeatSetting.WEEKLY
  | _ => Except.error "ValueError"

/-- The `day_of_week` assertions (schedule.py lines 130-132): when present it
must lie in `range(7)`. -/
def checkDay : Option Int → Except String Unit
  | none => Except.ok ()
  | some d =>
      if 0 ≤ d ∧ d < 7 then Except.ok () else Except.error "AssertionError"

/-- The sharding branch of `from_data` (schedule.py lines 134-148): compute
`valid_shard` from the elapsed days — daily cadence shards by day, weekly by
week — and build the shard filter carrying it (`num_shards = 0` raises
`ZeroDivisionError` in the `%`). -/
def mkSharding (repeats : RepeatSetting) (elapsed_days : Int) :
    Option ShardingData → Except String (Option ShardFilter)
  | none => Except.ok none
  | some sd =>
      if sd.num_shards = 0 then Except.error "ZeroDivisionError"
      else
        let valid_shard :=
          if repeats = RepeatSetting.DAILY then pyMod elapsed_days sd.num_shards
          else pyMod (pyFloorDiv elapsed_days 7) sd.num_shards
        Except.ok (some ⟨sd.num_shards, valid_shard⟩)

/-- The method `SchemaScheduleSettings.from_data` (schedule.py lines 111-152): parse the
cadence, check the hour and day ranges, and resolve the optional sharding. -/
def SchemaScheduleSettings.from_data (data : ScheduleSettingsData)
    (elapsed_days : Int) : Except String SchemaScheduleSettings :=
  match parseRepeats data.repeats with
  | Except.error e => Except.error e
  | Except.ok repeats =>
      if 0 ≤ data.hour_of_day ∧ data.hour_of_day < 24 then
        match checkDay data.day_of_week with
        | Except.error e => Except.error e
        | Except.ok _ =>
            match mkSharding repeats elapsed_days data.sharding with
            | Except.error e => Except.error e
            | Except.ok shard_filter =>
                Except.ok ⟨repeats, data.hour_of_day, data.day_of_week, shard_filter⟩
      else Except.error "AssertionError"

/-- A `ScheduledSchema`: a schema reference paired with schedule settings. -/
structure ScheduledSchema where
  type : SchemaType
  schema : String
  schedule : SchemaScheduleSettings
deriving DecidableEq, Repr

/-- The decoded-JSON input of `ScheduledSchema.from_data`. -/
structure ScheduledSchemaData where
  type : String
  schema : String
  schedule : ScheduleSettingsData
deriving DecidableEq, Repr

/-- Parsing `SchemaType(data["type"])`: a `ValueError` on unknown values. -/
def parseSchemaType : String → Except String SchemaType
  | "builder" => Except.ok SchemaType.BUILDER
  | "file" => Except.ok SchemaType.FILE
  | _ => Except.error "ValueError"

/-- The method `ScheduledSchema.from_data` (schedule.py lines 237-255). -/
def ScheduledSchema.from_data (data : ScheduledSchemaData) (elapsed_days : Int) :
    Except String ScheduledSchema :=
  match parseSchemaType data.type with
  | Except.error e => Except.error e
  | Except.ok schema_type =>
      match SchemaScheduleSettings.from_data data.schedule elapsed_days with
      | Except.error e => Except.error e
      | Except.ok schedule => Except.ok ⟨schema_type, data.schema, schedule⟩

/-- A `Schedule`: base time, excluded days and the scheduled schemas. The
`Runner` is an external collaborator; its invocations are recorded in the run
trace instead. -/
structure Schedule where
  base_time : Int
  excluded_days : List Int
  schemas : List ScheduledSchema
deriving DecidableEq, Repr

/-- The decoded-JSON input of `Schedule.from_data` (the `runner` entry only
feeds the external runner factory and is elided). -/
structure ScheduleData where
  base_time : Int
  excluded_days : List Int
  schemas : List ScheduledSchemaData
deriving DecidableEq, Repr

/-- The `excluded_days` assertions (schedule.py lines 390-394). -/
def checkExcludedDays : List Int → Except String Unit
  | [] => Except.ok ()
  | d :: rest =>
      if 0 ≤ d ∧ d < 7 then checkExcludedDays rest
      else Except.error "AssertionError"

/-- Computes `elapsed_days = (start_time - base_time) // 60 // 60 // 24`
(schedule.py line 396): derived only from the two instants. -/
def elapsedDaysAt (base_time start_time : Int) : Int :=
  pyFloorDiv (pyFloorDiv (pyFloorDiv (start_time - base_time) 60) 60) 24

/-- The schema list comprehension of `Schedule.from_data` (line 397). -/
def schemasFromData : List ScheduledSchemaData → Int →
    Except String (List ScheduledSchema)
  | [], _ => Except.ok []
  | d :: rest, elapsed_days =>
      match ScheduledSchema.from_data d elapsed_days with
      | Except.error e => Except.error e
      | Except.ok s =>
          match schemasFromData rest elapsed_days with
          | Except.error e => Except.error e
          | Except.ok others => Except.ok (s :: others)

/-- The method `Schedule.from_data` (schedule.py lines 376-398): validate the excluded
days, compute the elapsed days from `(start_time, base_time)` alone, and
build every scheduled schema with it. -/
def Schedule.from_data (data : ScheduleData) (start_time : Int) :
    Except String Schedule :=
  match checkExcludedDays data.excluded_days with
  | Except.error e => Except.error e
  | Except.ok _ =>
      match schemasFromData data.schemas (elapsedDaysAt data.base_time start_time) with
      | Except.error e => Except.error e
      | Except.ok schemas => Except.ok ⟨data.base_time, data.excluded_days, schemas⟩

/-- The time decomposition at the head of `Schedule.run` (schedule.py lines
301-305), returning `(elapsed_days, hour_of_day, elapsed_weeks, day_of_week)`.
`elapsed_hours = int(elapsed_time / 60 / 60)` truncates the exact quotient
toward zero (`Int.tdiv`); the two `divmod`s are floor-based. -/
def timeDecomp (elapsed_time : Int) : Int × Int × Int × Int :=
  let elapsed_hours := Int.tdiv elapsed_time 3600
  let dm1 := pyDivMod elapsed_hours 24
  let dm2 := pyDivMod dm1.1 7
  (dm1.1, dm1.2, dm2.1, dm2.2)

/-- The spec's decomposition (§4.5 step 1), stated from the spec's words for
comparison with `timeDecomp`: `elapsed_hours = floor(elapsed_seconds / 3600)`
followed by the same two `divmod`s. -/
def specTimeDecomp (elapsed_time : Int) : Int × Int × Int × Int :=
  let elapsed_hours := pyFloorDiv elapsed_time 3600
  let dm1 := pyDivMod elapsed_hours 24
  let dm2 := pyDivMod dm1.1 7
  (dm1.1, dm1.2, dm2.1, dm2.2)

/-- The observable actions of one `Schedule.run` tick: resolving a scheduled
schema to a concrete schema (schedule.py lines 326-336, file load or builder
— before the `should_run` check), and dispatching it to the runner (line
360). The dispatched schema carries its shard filter in its settings. -/
inductive ScheduleEvent where
  | resolve : ScheduledSchema → ScheduleEvent
  | runnerRun : ScheduledSchema → ScheduleEvent
deriving DecidableEq, Repr

/-- The method `Schedule.run` (schedule.py lines 294-360): decompose the elapsed time;
if the day of week is excluded, return before touching any schema; otherwise
resolve each scheduled schema, skip it unless `should_run`, and dispatch the
rest to the runner. -/
def Schedule.run (sched : Schedule) (start_time : Int) : List ScheduleEvent :=
  let elapsed_time := start_time - sched.base_time
  let td := timeDecomp elapsed_time
  let hour_of_day := td.2.1
  let day_of_week := td.2.2.2
  if day_of_week ∈ sched.excluded_days then []
  else
    sched.schemas.flatMap fun scheduled_schema =>
      ScheduleEvent.resolve scheduled_schema ::
        (if scheduled_schema.schedule.should_run hour_of_day day_of_week then
          [ScheduleEvent.runnerRun scheduled_schema]
        else [])

/-- A concrete two-batch package for evaluating the run pipeline: two files,
no filters, one batch per file (by index), one validator that flags the
second batch with ERROR, one command. -/
def samplePackage : AutoTransformPackage String Unit String where
  input := ["a", "b"]
  filters := []
  batcher := fun _ => [⟨[0], ()⟩, ⟨[1], ()⟩]
  validators :=
    [fun b =>
      if b.files = ["b"] then ⟨ValidationResultLevel.ERROR, "bad"⟩
      else ⟨ValidationResultLevel.NONE, ""⟩]
  commands := ["c"]
  config := {}

/-! ## Arithmetic and chunking lemmas -/

theorem ceilDiv_eq_succ_pred_div (a b : Nat) (ha : 0 < a) (hb : 0 < b) :
    ceilDiv a b = (a - 1) / b + 1 := by
  unfold ceilDiv
  have h1 : a + b - 1 = (a - 1) + b := by omega
  rw [h1, Nat.add_div_right _ hb]

theorem ceilDiv_zero_left (b : Nat) : ceilDiv 0 b = 0 := by
  unfold ceilDiv
  rcases Nat.eq_zero_or_pos b with hb | hb
  · simp [hb]
  · have : 0 + b - 1 = b - 1 := by omega
    rw [this]
    exact Nat.div_eq_of_lt (by omega)

theorem ceilDiv_pos (a b : Nat) (ha : 0 < a) (hb : 0 < b) : 0 < ceilDiv a b := by
  rw [ceilDiv_eq_succ_pred_div a b ha hb]; exact Nat.succ_pos _

/-- The defining Galois property: `ceilDiv a b ≤ c ↔ a ≤ b * c` for `b > 0`. -/
theorem ceilDiv_le_iff (a b c : Nat) (hb : 0 < b) : ceilDiv a b ≤ c ↔ a ≤ b * c := by
  unfold ceilDiv
  rw [Nat.div_le_iff_le_mul_add_pred hb]
  omega

/-- The upper-bound half: `a ≤ b * ceilDiv a b` for `b > 0`. -/
theorem le_mul_ceilDiv (a b : Nat) (hb : 0 < b) : a ≤ b * ceilDiv a b :=
  (ceilDiv_le_iff a b (ceilDiv a b) hb).mp (Nat.le_refl _)

/-- The lower-bound half: `b * (ceilDiv a b - 1) < a` for `a > 0`, `b > 0`. -/
theorem mul_ceilDiv_pred_lt (a b : Nat) (ha : 0 < a) (hb : 0 < b) :
    b * (ceilDiv a b - 1) < a := by
  by_contra h
  have h2 : a ≤ b * (ceilDiv a b - 1) := by omega
  have h3 := (ceilDiv_le_iff a b (ceilDiv a b - 1) hb).mpr h2
  have h4 := ceilDiv_pos a b ha hb
  omega

/-- The chunks in their normal form: chunk `k` is `take cs` of `drop (k*cs)`. -/
theorem pyChunks_eq_map_range {α : Type} (cs : Nat) (l : List α) :
    pyChunks cs l =
      (List.range (ceilDiv l.length cs)).map (fun k => (l.drop (k * cs)).take cs) := by
  unfold pyChunks pyRangeStep pySlice
  rw [List.map_map]
  apply List.map_congr_left
  intro k _
  simp only [Function.comp_apply, Nat.add_sub_cancel_left]

/-- Chunk conservation: concatenating the chunks in order reproduces the list. -/
theorem pyChunks_flatten {α : Type} (cs : Nat) (hcs : 0 < cs) (l : List α) :
    (pyChunks cs l).flatten = l := by
  rw [pyChunks_eq_map_range]
  have key : ∀ k : Nat,
      ((List.range k).map (fun k => (l.drop (k * cs)).take cs)).flatten =
        l.take (k * cs) := by
    intro k
    induction k with
    | zero => simp
    | succ k ih =>
        rw [List.range_succ, List.map_append, List.flatten_append, ih]
        simp only [List.map_cons, List.map_nil, List.flatten_cons, List.flatten_nil,
          List.append_nil]
        rw [← List.take_add]
        congr 1
        rw [Nat.succ_mul]
  rw [key]
  apply List.take_of_length_le
  have h := le_mul_ceilDiv l.length cs hcs
  calc l.length ≤ cs * ceilDiv l.length cs := h
    _ = ceilDiv l.length cs * cs := Nat.mul_comm _ _

/-- The number of chunks is `ceil(len / cs)`. -/
theorem pyChunks_length {α : Type} (cs : Nat) (l : List α) :
    (pyChunks cs l).length = ceilDiv l.length cs := by
  rw [pyChunks_eq_map_range, List.length_map, List.length_range]

/-- Every chunk is non-empty and has length at most `cs` (for `cs ≥ 1`). -/
theorem pyChunks_mem_length {α : Type} (cs : Nat) (hcs : 0 < cs) (l : List α)
    (c : List α) (hc : c ∈ pyChunks cs l) : 0 < c.length ∧ c.length ≤ cs := by
  rw [pyChunks_eq_map_range] at hc
  rcases List.mem_map.mp hc with ⟨k, hk, rfl⟩
  rw [List.mem_range] at hk
  have hq : 0 < ceilDiv l.length cs := by omega
  have hN : 0 < l.length := by
    by_contra h0
    have h1 : l.length = 0 := by omega
    rw [h1, ceilDiv_zero_left] at hq
    omega
  have hlt : k * cs < l.length := by
    have h2 : k * cs ≤ (ceilDiv l.length cs - 1) * cs := Nat.mul_le_mul_right _ (by omega)
    have h3 : cs * (ceilDiv l.length cs - 1) < l.length := mul_ceilDiv_pred_lt l.length cs hN hcs
    calc k * cs ≤ (ceilDiv l.length cs - 1) * cs := h2
      _ = cs * (ceilDiv l.length cs - 1) := Nat.mul_comm _ _
      _ < l.length := h3
  simp only [List.length_take, List.length_drop]
  omega

/-- Every chunk except the last has length exactly `cs` (for `cs ≥ 1`). -/
theorem pyChunks_dropLast_length {α : Type} (cs : Nat) (hcs : 0 < cs) (l : List α)
    (c : List α) (hc : c ∈ (pyChunks cs l).dropLast) : c.length = cs := by
  rw [pyChunks_eq_map_range] at hc
  rcases hq : ceilDiv l.length cs with _ | m
  · rw [hq] at hc; simp at hc
  · rw [hq, List.range_succ, List.map_append] at hc
    simp only [List.map_cons, List.map_nil] at hc
    rw [List.dropLast_concat] at hc
    rcases List.mem_map.mp hc with ⟨k, hk, rfl⟩
    rw [List.mem_range] at hk
    have hN : 0 < l.length := by
      by_contra h0
      have h1 : l.length = 0 := by omega
      rw [h1, ceilDiv_zero_left] at hq
      cases hq
    have hfit : k * cs + cs ≤ l.length := by
      have h2 : (k + 1) * cs ≤ m * cs := Nat.mul_le_mul_right _ (by omega)
      have h3 : cs * (ceilDiv l.length cs - 1) < l.length :=
        mul_ceilDiv_pred_lt l.length cs hN hcs
      have h4 : ceilDiv l.length cs - 1 = m := by omega
      rw [h4] at h3
      have h5 : (k + 1) * cs = k * cs + cs := Nat.succ_mul _ _
      calc k * cs + cs = (k + 1) * cs := h5.symm
        _ ≤ m * cs := h2
        _ = cs * m := Nat.mul_comm _ _
        _ ≤ l.length := Nat.le_of_lt h3
    simp only [List.length_take, List.length_drop]
    omega

/-- The chunk count identity behind the batcher: with `q = ceil(N/M)` groups
and slice size `cs = ceil(N/q)`, slicing yields exactly `q` chunks. -/
theorem ceilDiv_ceilDiv_ceilDiv (N M : Nat) (hM : 0 < M) (h : M < N) :
    ceilDiv N (ceilDiv N (ceilDiv N M)) = ceilDiv N M := by
  have hN : 0 < N := by omega
  have hqpos : 0 < ceilDiv N M := ceilDiv_pos N M hN hM
  have hcspos : 0 < ceilDiv N (ceilDiv N M) := ceilDiv_pos N (ceilDiv N M) hN hqpos
  have h1 : ceilDiv N (ceilDiv N (ceilDiv N M)) ≤ ceilDiv N M := by
    rw [ceilDiv_le_iff _ _ _ hcspos, Nat.mul_comm]
    exact le_mul_ceilDiv N (ceilDiv N M) hqpos
  have hcsM : ceilDiv N (ceilDiv N M) ≤ M := by
    rw [ceilDiv_le_iff _ _ _ hqpos, Nat.mul_comm]
    exact le_mul_ceilDiv N M hM
  have h2 : ceilDiv N M ≤ ceilDiv N (ceilDiv N (ceilDiv N M)) := by
    by_contra hcon
    have h3 : ceilDiv N (ceilDiv N (ceilDiv N M)) ≤ ceilDiv N M - 1 := by omega
    have h4 : N ≤ ceilDiv N (ceilDiv N M) * (ceilDiv N M - 1) :=
      (ceilDiv_le_iff _ _ _ hcspos).mp h3
    have h5 : M * (ceilDiv N M - 1) < N := mul_ceilDiv_pred_lt N M hN hM
    have h6 : ceilDiv N (ceilDiv N M) * (ceilDiv N M - 1) ≤ M * (ceilDiv N M - 1) :=
      Nat.mul_le_mul_right _ hcsM
    omega
  omega

/-! ## Emission-loop lemmas -/

/-- The emission loop builds exactly one batch per chunk, via `mkBatch`, with
some title; in particular its item lists are the chunks themselves. -/
theorem emitChunks_map_eq (mkBatch : List FileItem → String → Batch)
    (pfx owner : String) (num_chunks : Nat)
    (hmk : ∀ c t, (mkBatch c t).items = c) :
    ∀ (cks : List (List FileItem)) (i : Nat) (t : String),
      (emitChunks mkBatch pfx owner num_chunks i t cks).map Batch.items = cks := by
  intro cks
  induction cks with
  | nil => intro i t; rfl
  | cons c rest ih =>
      intro i t
      simp only [emitChunks, List.map_cons, hmk, ih]

/-- Every batch produced by the emission loop is `mkBatch` applied to some
chunk of the chunk list and some title. -/
theorem emitChunks_mem (mkBatch : List FileItem → String → Batch)
    (pfx owner : String) (num_chunks : Nat) :
    ∀ (cks : List (List FileItem)) (i : Nat) (t : String) (b : Batch),
      b ∈ emitChunks mkBatch pfx owner num_chunks i t cks →
      ∃ c t2, c ∈ cks ∧ b = mkBatch c t2 := by
  intro cks
  induction cks with
  | nil => intro i t b hb; cases hb
  | cons c rest ih =>
      intro i t b hb
      rw [emitChunks, List.mem_cons] at hb
      rcases hb with hb | hb
      · exact ⟨c, t, List.mem_cons_self _ _, hb⟩
      · rcases ih _ _ _ hb with ⟨c2, t2, hc2, hb2⟩
        exact ⟨c2, t2, List.mem_cons_of_mem _ hc2, hb2⟩

/-! ## Claim theorems about the batcher -/

/-- C1: evaluating `CodeownersBatcher.batch` at a run whose single item has no
resolvable owner shows the unowned chunk appearing twice in the returned batch
list — the loop emits it once and codeowners.py line 166 appends the loop's
final batch a second time, contradicting the claimed exactly-once emission. -/
theorem C1_unowned_final_chunk_duplicated :
    CodeownersBatcher.batch ⟨"test", none, none⟩ (fun _ => []) [⟨"a.py"⟩] =
      [⟨[⟨"a.py"⟩], "test unowned", none⟩, ⟨[⟨"a.py"⟩], "test unowned", none⟩] := by
  rfl

/-- C2 (counterexample): a team group of 7 items with `max_batch_size = 3`
produces chunks of sizes 3, 3, 1 — the first and last differ by 2, refuting
the claim that no two chunks differ in size by more than 1. -/
theorem C2_balance_counterexample :
    ((CodeownersBatcher.batch ⟨"p", some 3, none⟩
        (fun _ => [(OwnerType.TEAM, "@infra")])
        [⟨"f1"⟩, ⟨"f2"⟩, ⟨"f3"⟩, ⟨"f4"⟩, ⟨"f5"⟩, ⟨"f6"⟩, ⟨"f7"⟩]).map
      (fun b => b.items.length) = [3, 3, 1]) ∧
    ¬ (∀ b1 ∈ CodeownersBatcher.batch ⟨"p", some 3, none⟩
          (fun _ => [(OwnerType.TEAM, "@infra")])
          [⟨"f1"⟩, ⟨"f2"⟩, ⟨"f3"⟩, ⟨"f4"⟩, ⟨"f5"⟩, ⟨"f6"⟩, ⟨"f7"⟩],
        ∀ b2 ∈ CodeownersBatcher.batch ⟨"p", some 3, none⟩
          (fun _ => [(OwnerType.TEAM, "@infra")])
          [⟨"f1"⟩, ⟨"f2"⟩, ⟨"f3"⟩, ⟨"f4"⟩, ⟨"f5"⟩, ⟨"f6"⟩, ⟨"f7"⟩],
        b1.items.length ≤ b2.items.length + 1) := by
  constructor
  · rfl
  · decide

/-- C2 (amended): for a group of `N` items with `max_batch_size = M`, `N > M ≥ 1`,
the batcher produces `num_chunks = ceil(N/M)` contiguous chunks whose
concatenation in order is exactly the original group; every chunk is non-empty
with at most `chunk_size = ceil(N/num_chunks)` items and all chunks except the
last have exactly `chunk_size` items (so the last chunk may be smaller than
the others by more than 1). The emitted team batches carry exactly these
chunks as their item lists. -/
theorem C2_group_chunking (M : Nat) (l : List FileItem) (hM : 0 < M)
    (hl : M < l.length) :
    (makeChunks (some M) l).1 = ceilDiv l.length M ∧
    (makeChunks (some M) l).2.length = ceilDiv l.length M ∧
    (makeChunks (some M) l).2.flatten = l ∧
    (∀ c ∈ (makeChunks (some M) l).2.dropLast,
      c.length = ceilDiv l.length (ceilDiv l.length M)) ∧
    (∀ c ∈ (makeChunks (some M) l).2,
      0 < c.length ∧ c.length ≤ ceilDiv l.length (ceilDiv l.length M)) ∧
    (∀ cfg : CodeownersBatcher, cfg.max_batch_size = some M → ∀ ow : String,
      (teamGroupBatches cfg ow l).map Batch.items = (makeChunks (some M) l).2) := by
  have hN : 0 < l.length := by omega
  have hq : 0 < ceilDiv l.length M := ceilDiv_pos l.length M hN hM
  have hcs : 0 < ceilDiv l.length (ceilDiv l.length M) :=
    ceilDiv_pos l.length (ceilDiv l.length M) hN hq
  have hsplit : isSplit (some M) l.length = true := by
    simp only [isSplit, decide_eq_true_eq]; omega
  have hmc : makeChunks (some M) l =
      (ceilDiv l.length M, pyChunks (ceilDiv l.length (ceilDiv l.length M)) l) := by
    unfold makeChunks
    rw [hsplit]
    rfl
  rw [hmc]
  refine ⟨rfl, ?_, pyChunks_flatten _ hcs l, ?_, ?_, ?_⟩
  · rw [pyChunks_length _ l]
    exact ceilDiv_ceilDiv_ceilDiv l.length M hM hl
  · intro c hc
    exact pyChunks_dropLast_length _ hcs l c hc
  · intro c hc
    exact pyChunks_mem_length _ hcs l c hc
  · intro cfg hcfg ow
    unfold teamGroupBatches
    rw [hcfg, hmc]
    exact emitChunks_map_eq _ cfg.pfx ow _ (fun _ _ => rfl) _ 1 _

/-- C3 (counterexample): with base metadata `team_reviewers = ["infra", "sec"]`
and a single item owned by team `infra`, the produced chunk's metadata has
`team_reviewers = ["infra"]` — the list is replaced by the singleton, not left
unchanged with the other entry preserved as claimed. -/
theorem C3_owner_present_counterexample :
    ((CodeownersBatcher.batch ⟨"p", none, some ⟨some ["infra", "sec"], none, []⟩⟩
        (fun _ => [(OwnerType.TEAM, "@infra")]) [⟨"a.py"⟩]).map Batch.metadata =
      [some ⟨some ["infra"], none, []⟩]) ∧
    (some (⟨some ["infra"], none, []⟩ : Metadata) ≠
      some ⟨some ["infra", "sec"], none, []⟩) := by
  constructor
  · rfl
  · decide

/-- C3 (amended): each team chunk's metadata is an independent copy of the
configured base metadata transformed by `addTeamReviewer`: the owner is
appended to `team_reviewers` when that list exists and does not contain the
owner; otherwise (list absent, or owner already present) `team_reviewers` is
assigned the singleton `[owner]`, other keys untouched. Individual chunks
behave the same on `reviewers`, and unowned chunks carry exactly the
configured metadata (no key at all when none is configured). -/
theorem C3_metadata_injection :
    (∀ (cfg : CodeownersBatcher) (ow : String) (its : List FileItem) (b : Batch),
      b ∈ teamGroupBatches cfg ow its →
      b.metadata = some (addTeamReviewer (cfg.metadata.getD emptyMetadata) ow)) ∧
    (∀ (cfg : CodeownersBatcher) (ow : String) (its : List FileItem) (b : Batch),
      b ∈ individualGroupBatches cfg ow its →
      b.metadata = some (addReviewer (cfg.metadata.getD emptyMetadata) ow)) ∧
    (∀ (cfg : CodeownersBatcher) (its : List FileItem) (b : Batch),
      b ∈ unownedBatches cfg its → b.metadata = cfg.metadata) ∧
    (∀ (m : Metadata) (ow : String),
      (addTeamReviewer m ow).reviewers = m.reviewers ∧
      (addTeamReviewer m ow).other = m.other ∧
      (∀ l, m.team_reviewers = some l → ow ∉ l →
        (addTeamReviewer m ow).team_reviewers = some (l ++ [ow])) ∧
      (∀ l, m.team_reviewers = some l → ow ∈ l →
        (addTeamReviewer m ow).team_reviewers = some [ow]) ∧
      (m.team_reviewers = none → (addTeamReviewer m ow).team_reviewers = some [ow])) ∧
    (∀ (m : Metadata) (ow : String),
      (addReviewer m ow).team_reviewers = m.team_reviewers ∧
      (addReviewer m ow).other = m.other ∧
      (∀ l, m.reviewers = some l → ow ∉ l →
        (addReviewer m ow).reviewers = some (l ++ [ow])) ∧
      (∀ l, m.reviewers = some l → ow ∈ l →
        (addReviewer m ow).reviewers = some [ow]) ∧
      (m.reviewers = none → (addReviewer m ow).reviewers = some [ow])) := by
  refine ⟨?_, ?_, ?_, ?_, ?_⟩
  · intro cfg ow its b hb
    rcases emitChunks_mem _ _ _ _ _ _ _ _ hb with ⟨c, t2, _, rfl⟩
    rfl
  · intro cfg ow its b hb
    rcases emitChunks_mem _ _ _ _ _ _ _ _ hb with ⟨c, t2, _, rfl⟩
    rfl
  · intro cfg its b hb
    unfold unownedBatches at hb
    rw [List.mem_append] at hb
    rcases hb with hb | hb
    · rcases emitChunks_mem _ _ _ _ _ _ _ _ hb with ⟨c, t2, _, rfl⟩
      rfl
    · rcases hlast : (emitChunks
          (fun chunk title => { items := chunk, title := title, metadata := cfg.metadata })
          cfg.pfx "unowned" (makeChunks cfg.max_batch_size its).1 1
          (initialTitle (isSplit cfg.max_batch_size its.length)
            (makeChunks cfg.max_batch_size its).1 cfg.pfx "unowned")
          (makeChunks cfg.max_batch_size its).2).getLast? with _ | b2
      · rw [hlast] at hb; cases hb
      · rw [hlast] at hb
        rcases List.mem_singleton.mp hb with rfl
        rcases List.getLast?_eq_some_iff.mp hlast with ⟨ys, hys⟩
        have hmem := hys ▸ List.mem_append.mpr (Or.inr (List.mem_singleton.mpr rfl))
        rcases emitChunks_mem _ _ _ _ _ _ _ _ hmem with ⟨c, t2, _, rfl⟩
        rfl
  · intro m ow
    obtain ⟨tr, rv, ot⟩ := m
    cases tr with
    | none => exact ⟨rfl, rfl, by simp, by simp, fun _ => rfl⟩
    | some l =>
      by_cases how : ow ∈ l
      · have hneg : ¬ (ow ∉ l) := fun hc => hc how
        refine ⟨?_, ?_, ?_, ?_, ?_⟩
        · simp only [addTeamReviewer, if_neg hneg]
        · simp only [addTeamReviewer, if_neg hneg]
        · intro l2 hl2 hnin
          injection hl2 with h
          subst h
          exact absurd how hnin
        · intro l2 hl2 _
          simp only [addTeamReviewer, if_neg hneg]
        · intro hnone
          cases hnone
      · refine ⟨?_, ?_, ?_, ?_, ?_⟩
        · simp only [addTeamReviewer, if_pos how]
        · simp only [addTeamReviewer, if_pos how]
        · intro l2 hl2 _
          injection hl2 with h
          subst h
          simp only [addTeamReviewer, if_pos how]
        · intro l2 hl2 hin
          injection hl2 with h
          subst h
          exact absurd hin how
        · intro hnone
          cases hnone
  · intro m ow
    obtain ⟨tr, rv, ot⟩ := m
    cases rv with
    | none => exact ⟨rfl, rfl, by simp, by simp, fun _ => rfl⟩
    | some l =>
      by_cases how : ow ∈ l
      · have hneg : ¬ (ow ∉ l) := fun hc => hc how
        refine ⟨?_, ?_, ?_, ?_, ?_⟩
        · simp only [addReviewer, if_neg hneg]
        · simp only [addReviewer, if_neg hneg]
        · intro l2 hl2 hnin
          injection hl2 with h
          subst h
          exact absurd how hnin
        · intro l2 hl2 _
          simp only [addReviewer, if_neg hneg]
        · intro hnone
          cases hnone
      · refine ⟨?_, ?_, ?_, ?_, ?_⟩
        · simp only [addReviewer, if_pos how]
        · simp only [addReviewer, if_pos how]
        · intro l2 hl2 _
          injection hl2 with h
          subst h
          simp only [addReviewer, if_pos how]
        · intro l2 hl2 hin
          injection hl2 with h
          subst h
          exact absurd hin how
        · intro hnone
          cases hnone

/-- Witness for C2 (amended): the chunking of 7 items at `max_batch_size = 3`
conserves the items. -/
theorem C2_group_chunking_witness :
    (makeChunks (some 3)
        [⟨"f1"⟩, ⟨"f2"⟩, ⟨"f3"⟩, ⟨"f4"⟩, ⟨"f5"⟩, ⟨"f6"⟩, ⟨"f7"⟩]).2.flatten =
      [⟨"f1"⟩, ⟨"f2"⟩, ⟨"f3"⟩, ⟨"f4"⟩, ⟨"f5"⟩, ⟨"f6"⟩, ⟨"f7"⟩] :=
  (C2_group_chunking 3 [⟨"f1"⟩, ⟨"f2"⟩, ⟨"f3"⟩, ⟨"f4"⟩, ⟨"f5"⟩, ⟨"f6"⟩, ⟨"f7"⟩]
    (by decide) (by decide)).2.2.1

/-- Witness for C3 (amended): the single team batch of the counterexample
configuration carries exactly `addTeamReviewer` applied to the base copy. -/
theorem C3_metadata_injection_witness :
    (Batch.mk [⟨"a.py"⟩] "p infra" (some ⟨some ["infra"], none, []⟩)).metadata =
      some (addTeamReviewer
        ((some (⟨some ["infra", "sec"], none, []⟩ : Metadata)).getD emptyMetadata)
        "infra") :=
  C3_metadata_injection.1 ⟨"p", none, some ⟨some ["infra", "sec"], none, []⟩⟩
    "infra" [⟨"a.py"⟩] (Batch.mk [⟨"a.py"⟩] "p infra" (some ⟨some ["infra"], none, []⟩))
    (by decide)

/-! ## Pipeline run lemmas -/

theorem commandEvents_append {F M C : Type} (l1 l2 : List (RunEvent F M C)) :
    commandEvents (l1 ++ l2) = commandEvents l1 ++ commandEvents l2 := by
  induction l1 with
  | nil => rfl
  | cons e rest ih => cases e <;> simp [commandEvents, ih]

theorem commandEvents_transforms {F M C : Type} (fs : List F) :
    commandEvents (fs.map (RunEvent.transform : F → RunEvent F M C)) = [] := by
  induction fs with
  | nil => rfl
  | cons f rest ih => simp [commandEvents, ih]

theorem commandEvents_commands {F M C : Type} (cs : List C) (b : ProcBatch F M) :
    commandEvents (cs.map fun c => RunEvent.command c b) = cs.map fun c => (c, b) := by
  induction cs with
  | nil => rfl
  | cons c rest ih => simp [commandEvents, ih]

/-- A raised `ValidationError` carries the first result above the threshold. -/
theorem runValidators_eq_some {F M : Type}
    (vs : List (ProcBatch F M → ValidationResult)) (t : ValidationResultLevel)
    (b : ProcBatch F M) (r : ValidationResult) (h : runValidators vs t b = some r) :
    levelLt t r.level = true ∧ ∃ v ∈ vs, v b = r := by
  induction vs with
  | nil => cases h
  | cons v rest ih =>
      simp only [runValidators] at h
      split at h
      · next hcond =>
          injection h with h2
          subst h2
          exact ⟨hcond, v, List.mem_cons_self _ _, rfl⟩
      · rcases ih h with ⟨h1, v2, hv2, hr⟩
        exact ⟨h1, v2, List.mem_cons_of_mem _ hv2, hr⟩

/-- The validator loop aborts exactly when some validator's result exceeds the
threshold. -/
theorem runValidators_isSome_iff {F M : Type}
    (vs : List (ProcBatch F M → ValidationResult)) (t : ValidationResultLevel)
    (b : ProcBatch F M) :
    (runValidators vs t b).isSome = true ↔
      ∃ v ∈ vs, levelLt t (v b).level = true := by
  induction vs with
  | nil => simp [runValidators]
  | cons v rest ih =>
      simp only [runValidators]
      split
      · next hcond =>
          simp only [Option.isSome_some, true_iff]
          exact ⟨v, List.mem_cons_self _ _, hcond⟩
      · next hcond =>
          rw [ih]
          constructor
          · rintro ⟨v2, hv2, h2⟩
            exact ⟨v2, List.mem_cons_of_mem _ hv2, h2⟩
          · rintro ⟨v2, hv2, h2⟩
            rcases List.mem_cons.mp hv2 with rfl | hv2
            · exact absurd h2 hcond
            · exact ⟨v2, hv2, h2⟩

/-- The validator loop passes exactly when every validator's result is at or
below the threshold. -/
theorem runValidators_eq_none_iff {F M : Type}
    (vs : List (ProcBatch F M → ValidationResult)) (t : ValidationResultLevel)
    (b : ProcBatch F M) :
    runValidators vs t b = none ↔
      ∀ v ∈ vs, levelLt t (v b).level = false := by
  rw [← Option.not_isSome_iff_eq_none, runValidators_isSome_iff]
  constructor
  · intro h v hv
    by_contra hc
    exact h ⟨v, hv, by revert hc; cases levelLt t (v b).level <;> simp⟩
  · rintro h ⟨v, hv, h2⟩
    rw [h v hv] at h2
    cases h2

/-- The batch loop aborts only with a result above the threshold, produced by
one of the validators on one of the batches. -/
theorem runBatches_abort_level {F M C : Type} (p : AutoTransformPackage F M C) :
    ∀ (bs : List (ProcBatch F M)) (r : ValidationResult),
      (runBatches p bs).2 = some r →
      levelLt p.config.allowed_validation_level r.level = true ∧
        ∃ b ∈ bs, ∃ v ∈ p.validators, v b = r := by
  intro bs
  induction bs with
  | nil => intro r h; cases h
  | cons b rest ih =>
      intro r h
      simp only [runBatches] at h
      split at h
      · next r2 hrv =>
          injection h with h2
          subst h2
          rcases runValidators_eq_some _ _ _ _ hrv with ⟨h1, v, hv, heq⟩
          exact ⟨h1, b, List.mem_cons_self _ _, v, hv, heq⟩
      · next hrv =>
          rcases ih r h with ⟨h1, b2, hb2, v, hv, heq⟩
          exact ⟨h1, b2, List.mem_cons_of_mem _ hb2, v, hv, heq⟩

/-- The batch loop aborts exactly when some batch has a validator result above
the threshold. -/
theorem runBatches_isSome_iff {F M C : Type} (p : AutoTransformPackage F M C) :
    ∀ bs : List (ProcBatch F M),
      ((runBatches p bs).2).isSome = true ↔
        ∃ b ∈ bs, ∃ v ∈ p.validators,
          levelLt p.config.allowed_validation_level (v b).level = true := by
  intro bs
  induction bs with
  | nil => simp [runBatches]
  | cons b rest ih =>
      simp only [runBatches]
      split
      · next r2 hrv =>
          simp only [Option.isSome_some, true_iff]
          have h2 : (runValidators p.validators p.config.allowed_validation_level b).isSome
              = true := by rw [hrv]; rfl
          rcases (runValidators_isSome_iff _ _ _).mp h2 with ⟨v, hv, h3⟩
          exact ⟨b, List.mem_cons_self _ _, v, hv, h3⟩
      · next hrv =>
          rw [ih]
          constructor
          · rintro ⟨b2, hb2, v, hv, h3⟩
            exact ⟨b2, List.mem_cons_of_mem _ hb2, v, hv, h3⟩
          · rintro ⟨b2, hb2, v, hv, h3⟩
            rcases List.mem_cons.mp hb2 with rfl | hb2
            · exact absurd h3 (by
                have h4 := (runValidators_eq_none_iff p.validators
                  p.config.allowed_validation_level b2).mp hrv v hv
                rw [h4]
                simp)
            · exact ⟨b2, hb2, v, hv, h3⟩

/-- The batch loop under a first failure at index `k`: the run aborts and the
command trace is exactly all commands of the batches before `k`, in order. -/
theorem runBatches_fail_at {F M C : Type} (p : AutoTransformPackage F M C) :
    ∀ (bs : List (ProcBatch F M)) (k : Nat) (hk : k < bs.length),
      (∀ (j : Nat) (hj : j < k),
        runValidators p.validators p.config.allowed_validation_level
          (bs.get ⟨j, by omega⟩) = none) →
      ((runValidators p.validators p.config.allowed_validation_level
          (bs.get ⟨k, hk⟩)).isSome = true) →
      ∃ r, (runBatches p bs).2 = some r ∧
        commandEvents (runBatches p bs).1 =
          (bs.take k).flatMap fun b => p.commands.map fun c => (c, b) := by
  intro bs
  induction bs with
  | nil => intro k hk; simp at hk
  | cons b rest ih =>
      intro k hk hpass hfail
      cases k with
      | zero =>
          rcases Option.isSome_iff_exists.mp hfail with ⟨r, hr⟩
          have hr2 : runValidators p.validators p.config.allowed_validation_level b
              = some r := hr
          refine ⟨r, ?_, ?_⟩
          · simp only [runBatches]
            rw [hr2]
          · simp only [runBatches]
            rw [hr2]
            simp [commandEvents_transforms]
      | succ k2 =>
          have h0 : runValidators p.validators p.config.allowed_validation_level b
              = none := hpass 0 (Nat.succ_pos _)
          have hk2 : k2 < rest.length := by
            simp only [List.length_cons] at hk; omega
          have hpass2 : ∀ (j : Nat) (hj : j < k2),
              runValidators p.validators p.config.allowed_validation_level
                (rest.get ⟨j, by omega⟩) = none := by
            intro j hj
            exact hpass (j + 1) (by omega)
          have hfail2 : (runValidators p.validators p.config.allowed_validation_level
              (rest.get ⟨k2, hk2⟩)).isSome = true := hfail
          rcases ih k2 hk2 hpass2 hfail2 with ⟨r, h1, h2⟩
          refine ⟨r, ?_, ?_⟩
          · simp only [runBatches]
            rw [h0]
            exact h1
          · simp only [runBatches]
            rw [h0]
            simp only [commandEvents_append, commandEvents_transforms,
              commandEvents_commands, List.nil_append, h2, List.take_succ_cons,
              List.flatMap_cons]

/-! ## Claim theorems about the pipeline run -/

/-- C4: the run aborts with `ValidationError(r)` exactly when a validator's
result level is strictly above `allowed_validation_level` under the order
NONE < WARNING < ERROR — the carried result always exceeds the threshold and
is one of the validators' results, and a run all of whose validator results
are at or below the threshold never aborts. -/
theorem C4_validation_gate {F M C : Type} (p : AutoTransformPackage F M C)
    (bs : List (ProcBatch F M)) (tr : List (RunEvent F M C))
    (out : Option ValidationResult)
    (hres : resolveBatches p (validFiles p) = some bs)
    (hrun : p.run = Except.ok (tr, out)) :
    (∀ r, out = some r →
      levelLt p.config.allowed_validation_level r.level = true ∧
        ∃ b ∈ bs, ∃ v ∈ p.validators, v b = r) ∧
    (out.isSome = true ↔
      ∃ b ∈ bs, ∃ v ∈ p.validators,
        levelLt p.config.allowed_validation_level (v b).level = true) := by
  unfold AutoTransformPackage.run at hrun
  rw [hres] at hrun
  injection hrun with h
  have hout : out = (runBatches p bs).2 := by rw [h]
  subst hout
  exact ⟨fun r hr => runBatches_abort_level p bs r hr, runBatches_isSome_iff p bs⟩

/-- Witness for C4: in the sample package the abort carries the ERROR result
of the validator on the second batch. -/
theorem C4_validation_gate_witness :
    levelLt ValidationResultLevel.NONE ValidationResultLevel.ERROR = true ∧
      ∃ b ∈ [ProcBatch.mk ["a"] (), ProcBatch.mk ["b"] ()],
        ∃ v ∈ samplePackage.validators,
          v b = ⟨ValidationResultLevel.ERROR, "bad"⟩ :=
  (C4_validation_gate samplePackage [ProcBatch.mk ["a"] (), ProcBatch.mk ["b"] ()]
    [RunEvent.transform "a", RunEvent.command "c" ⟨["a"], ()⟩, RunEvent.transform "b"]
    (some ⟨ValidationResultLevel.ERROR, "bad"⟩) rfl rfl).1
    ⟨ValidationResultLevel.ERROR, "bad"⟩ rfl

/-- C5: if batches before `k` (0-indexed here) all pass every validator and
some validator on batch `k` exceeds the threshold, the run aborts and its
command trace is exactly every command of batches before `k`, executed in
batch order — no command of batch `k` or any later batch ever runs, and there
is no rollback of the earlier commands. -/
theorem C5_fail_fast {F M C : Type} (p : AutoTransformPackage F M C)
    (bs : List (ProcBatch F M)) (k : Nat) (hk : k < bs.length)
    (hres : resolveBatches p (validFiles p) = some bs)
    (hpass : ∀ (j : Nat) (hj : j < k), ∀ v ∈ p.validators,
      levelLt p.config.allowed_validation_level
        (v (bs.get ⟨j, by omega⟩)).level = false)
    (hfail : ∃ v ∈ p.validators,
      levelLt p.config.allowed_validation_level
        (v (bs.get ⟨k, hk⟩)).level = true) :
    ∃ (tr : List (RunEvent F M C)) (r : ValidationResult),
      p.run = Except.ok (tr, some r) ∧
      commandEvents tr = (bs.take k).flatMap fun b => p.commands.map fun c => (c, b) := by
  have hpass2 : ∀ (j : Nat) (hj : j < k),
      runValidators p.validators p.config.allowed_validation_level
        (bs.get ⟨j, by omega⟩) = none := by
    intro j hj
    exact (runValidators_eq_none_iff _ _ _).mpr (hpass j hj)
  have hfail2 : (runValidators p.validators p.config.allowed_validation_level
      (bs.get ⟨k, hk⟩)).isSome = true :=
    (runValidators_isSome_iff _ _ _).mpr hfail
  rcases runBatches_fail_at p bs k hk hpass2 hfail2 with ⟨r, h1, h2⟩
  refine ⟨(runBatches p bs).1, r, ?_, h2⟩
  unfold AutoTransformPackage.run
  rw [hres, ← h1]

/-- Witness for C5: in the sample package the validator fails on the second
batch, and the command trace holds exactly the first batch's command. -/
theorem C5_fail_fast_witness :
    ∃ (tr : List (RunEvent String Unit String)) (r : ValidationResult),
      samplePackage.run = Except.ok (tr, some r) ∧
      commandEvents tr =
        ([ProcBatch.mk ["a"] (), ProcBatch.mk ["b"] ()].take 1).flatMap
          fun b => samplePackage.commands.map fun c => (c, b) :=
  C5_fail_fast samplePackage [ProcBatch.mk ["a"] (), ProcBatch.mk ["b"] ()] 1
    (by decide) rfl
    (by
      intro j hj v hv
      have hj0 : j = 0 := by omega
      subst hj0
      rcases List.mem_singleton.mp hv with rfl
      rfl)
    (by
      refine ⟨_, List.mem_singleton.mpr rfl, ?_⟩
      rfl)

/-! ## Serialization round-trip -/

/-- The check `has_value` accepts exactly the three encoded values and recovers the
level. -/
theorem ofValue_toNat (lvl : ValidationResultLevel) :
    ValidationResultLevel.ofValue lvl.toNat = some lvl := by
  cases lvl <;> rfl

/-- Rebuilding the configuration from its own bundle recovers it. -/
theorem config_from_data_bundle (c : PackageConfiguration) :
    PackageConfiguration.from_data
      [("allowed_validation_level", Json.num c.allowed_validation_level.toNat)] =
      Except.ok c := by
  obtain ⟨lvl⟩ := c
  cases lvl <;> rfl

/-- C9: for a package whose components' serialize/deserialize pairs are
faithful (factory `get` of a bundle re-bundles to the same bundle),
deserializing the serialized package and serializing again yields the same
serialized form, across all seven fields. -/
theorem C9_serialization_roundtrip {I B T Fl V C : Type}
    (aI : ComponentCodec I) (aB : ComponentCodec B) (aT : ComponentCodec T)
    (aF : ComponentCodec Fl) (aV : ComponentCodec V) (aC : ComponentCodec C)
    (p : SerialPackage I B T Fl V C)
    (hI : aI.bundle (aI.get (aI.bundle p.input)) = aI.bundle p.input)
    (hB : aB.bundle (aB.get (aB.bundle p.batcher)) = aB.bundle p.batcher)
    (hT : aT.bundle (aT.get (aT.bundle p.transformer)) = aT.bundle p.transformer)
    (hF : ∀ f ∈ p.filters, aF.bundle (aF.get (aF.bundle f)) = aF.bundle f)
    (hV : ∀ v ∈ p.validators, aV.bundle (aV.get (aV.bundle v)) = aV.bundle v)
    (hC : ∀ c ∈ p.commands, aC.bundle (aC.get (aC.bundle c)) = aC.bundle c) :
    ∃ p2, SerialPackage.from_json aI aB aT aF aV aC
        (SerialPackage.to_json aI aB aT aF aV aC p) = Except.ok p2 ∧
      SerialPackage.to_json aI aB aT aF aV aC p2 =
        SerialPackage.to_json aI aB aT aF aV aC p := by
  refine ⟨{ input := aI.get (aI.bundle p.input),
            batcher := aB.get (aB.bundle p.batcher),
            transformer := aT.get (aT.bundle p.transformer),
            filters := (p.filters.map aF.bundle).map aF.get,
            validators := (p.validators.map aV.bundle).map aV.get,
            commands := (p.commands.map aC.bundle).map aC.get,
            config := p.config }, ?_, ?_⟩
  · have hstep : SerialPackage.from_json aI aB aT aF aV aC
        (SerialPackage.to_json aI aB aT aF aV aC p) =
        match PackageConfiguration.from_data
            [("allowed_validation_level",
              Json.num p.config.allowed_validation_level.toNat)] with
        | Except.ok config =>
            Except.ok
              { input := aI.get (aI.bundle p.input),
                batcher := aB.get (aB.bundle p.batcher),
                transformer := aT.get (aT.bundle p.transformer),
                filters := (p.filters.map aF.bundle).map aF.get,
                validators := (p.validators.map aV.bundle).map aV.get,
                commands := (p.commands.map aC.bundle).map aC.get,
                config := config }
        | Except.error e => Except.error e := rfl
    rw [hstep, config_from_data_bundle]
  · have hFl : ((p.filters.map aF.bundle).map aF.get).map aF.bundle =
        p.filters.map aF.bundle := by
      rw [List.map_map, List.map_map]
      apply List.map_congr_left
      intro f hf
      simpa using hF f hf
    have hVl : ((p.validators.map aV.bundle).map aV.get).map aV.bundle =
        p.validators.map aV.bundle := by
      rw [List.map_map, List.map_map]
      apply List.map_congr_left
      intro v hv
      simpa using hV v hv
    have hCl : ((p.commands.map aC.bundle).map aC.get).map aC.bundle =
        p.commands.map aC.bundle := by
      rw [List.map_map, List.map_map]
      apply List.map_congr_left
      intro c hc
      simpa using hC c hc
    simp only [SerialPackage.to_json, hI, hB, hT, hFl, hVl, hCl]

/-- Witness for C9: the round trip evaluated on a concrete trivial package. -/
theorem C9_serialization_roundtrip_witness :
    ∃ p2, @SerialPackage.from_json Unit Unit Unit Unit Unit Unit
        ⟨fun _ => Json.num 0, fun _ => ()⟩ ⟨fun _ => Json.num 0, fun _ => ()⟩
        ⟨fun _ => Json.num 0, fun _ => ()⟩ ⟨fun _ => Json.num 0, fun _ => ()⟩
        ⟨fun _ => Json.num 0, fun _ => ()⟩ ⟨fun _ => Json.num 0, fun _ => ()⟩
        (SerialPackage.to_json ⟨fun _ => Json.num 0, fun _ => ()⟩
          ⟨fun _ => Json.num 0, fun _ => ()⟩ ⟨fun _ => Json.num 0, fun _ => ()⟩
          ⟨fun _ => Json.num 0, fun _ => ()⟩ ⟨fun _ => Json.num 0, fun _ => ()⟩
          ⟨fun _ => Json.num 0, fun _ => ()⟩
          ⟨(), (), (), [()], [], [], {}⟩) = Except.ok p2 ∧
      SerialPackage.to_json ⟨fun _ => Json.num 0, fun _ => ()⟩
        ⟨fun _ => Json.num 0, fun _ => ()⟩ ⟨fun _ => Json.num 0, fun _ => ()⟩
        ⟨fun _ => Json.num 0, fun _ => ()⟩ ⟨fun _ => Json.num 0, fun _ => ()⟩
        ⟨fun _ => Json.num 0, fun _ => ()⟩ p2 =
      SerialPackage.to_json ⟨fun _ => Json.num 0, fun _ => ()⟩
        ⟨fun _ => Json.num 0, fun _ => ()⟩ ⟨fun _ => Json.num 0, fun _ => ()⟩
        ⟨fun _ => Json.num 0, fun _ => ()⟩ ⟨fun _ => Json.num 0, fun _ => ()⟩
        ⟨fun _ => Json.num 0, fun _ => ()⟩ ⟨(), (), (), [()], [], [], {}⟩ :=
  C9_serialization_roundtrip _ _ _ _ _ _ ⟨(), (), (), [()], [], [], {}⟩
    rfl rfl rfl (fun _ _ => rfl) (fun _ _ => rfl) (fun _ _ => rfl)

/-! ## Scheduler claims -/

/-- C6: when the day of week computed from `(now − base_time)` is excluded,
`Schedule.run` returns before the schema loop — no scheduled schema is
resolved and the runner is never invoked, whatever the schemas' settings. -/
theorem C6_excluded_day_no_dispatch (sched : Schedule) (start_time : Int)
    (h : (timeDecomp (start_time - sched.base_time)).2.2.2 ∈ sched.excluded_days) :
    Schedule.run sched start_time = [] := by
  simp only [Schedule.run]
  rw [if_pos h]

/-- Witness for C6 (spec Scenario D): `excluded_days = [5, 6]`, six full days
after the base instant resolve to `day_of_week = 6`, and a daily schema due at
that very hour is still not dispatched. -/
theorem C6_excluded_day_no_dispatch_witness :
    Schedule.run
      ⟨0, [5, 6], [⟨SchemaType.FILE, "s.json", ⟨RepeatSetting.DAILY, 0, none, none⟩⟩]⟩
      518400 = [] :=
  C6_excluded_day_no_dispatch
    ⟨0, [5, 6], [⟨SchemaType.FILE, "s.json", ⟨RepeatSetting.DAILY, 0, none, none⟩⟩]⟩
    518400 (by decide)

/-- A successful schema-list construction is pointwise: it preserves length
and builds the `i`-th schema from the `i`-th datum. -/
theorem schemasFromData_pointwise :
    ∀ (ds : List ScheduledSchemaData) (e : Int) (ss : List ScheduledSchema),
      schemasFromData ds e = Except.ok ss →
      ss.length = ds.length ∧
      ∀ (i : Nat) (hi : i < ds.length) (hj : i < ss.length),
        ScheduledSchema.from_data (ds.get ⟨i, hi⟩) e = Except.ok (ss.get ⟨i, hj⟩) := by
  intro ds
  induction ds with
  | nil =>
      intro e ss h
      injection h with h2
      subst h2
      exact ⟨rfl, fun i hi => by simp at hi⟩
  | cons d rest ih =>
      intro e ss h
      simp only [schemasFromData] at h
      cases h1 : ScheduledSchema.from_data d e with
      | error e2 => rw [h1] at h; cases h
      | ok s =>
          rw [h1] at h
          cases h2 : schemasFromData rest e with
          | error e2 => rw [h2] at h; cases h
          | ok others =>
              rw [h2] at h
              injection h with h3
              subst h3
              rcases ih e others h2 with ⟨hlen, hpt⟩
              refine ⟨by simp [hlen], ?_⟩
              intro i hi hj
              cases i with
              | zero => exact h1
              | succ i2 =>
                  exact hpt i2 (by simpa using hi) (by simpa using hj)

/-- A successfully built scheduled schema carries the settings built from its
datum's `schedule` entry with the same elapsed days. -/
theorem scheduled_from_data_schedule (d : ScheduledSchemaData) (e : Int)
    (s : ScheduledSchema) (h : ScheduledSchema.from_data d e = Except.ok s) :
    SchemaScheduleSettings.from_data d.schedule e = Except.ok s.schedule := by
  unfold ScheduledSchema.from_data at h
  cases h1 : parseSchemaType d.type with
  | error e2 => rw [h1] at h; cases h
  | ok st =>
      rw [h1] at h
      cases h2 : SchemaScheduleSettings.from_data d.schedule e with
      | error e2 => rw [h2] at h; cases h
      | ok sett =>
          rw [h2] at h
          injection h with h3
          subst h3
          rfl

/-- Successfully built settings with a sharding entry carry the shard filter
with that `num_shards` and `valid_shard` computed by cadence: days modulo
shards for daily, weeks (days divided by 7) modulo shards for weekly. -/
theorem settings_from_data_shard (d : ScheduleSettingsData) (e : Int)
    (s : SchemaScheduleSettings) (sd : ShardingData)
    (h : SchemaScheduleSettings.from_data d e = Except.ok s)
    (hs : d.sharding = some sd) :
    s.sharding = some
      ⟨sd.num_shards,
        if s.repeats = RepeatSetting.DAILY then pyMod e sd.num_shards
        else pyMod (pyFloorDiv e 7) sd.num_shards⟩ := by
  unfold SchemaScheduleSettings.from_data at h
  cases h1 : parseRepeats d.repeats with
  | error e2 => rw [h1] at h; cases h
  | ok repeats =>
      rw [h1] at h
      dsimp only at h
      by_cases hh : 0 ≤ d.hour_of_day ∧ d.hour_of_day < 24
      · rw [if_pos hh] at h
        cases h2 : checkDay d.day_of_week with
        | error e2 => rw [h2] at h; cases h
        | ok u =>
            rw [h2] at h
            dsimp only at h
            rw [hs] at h
            unfold mkSharding at h
            dsimp only at h
            by_cases hns : sd.num_shards = 0
            · rw [if_pos hns] at h
              cases h
            · rw [if_neg hns] at h
              injection h with h3
              subst h3
              rfl
      · rw [if_neg hh] at h
        cases h

/-- C7: when `Schedule.from_data` succeeds, every schema datum carrying a
sharding entry yields a schedule entry whose shard filter has that
`num_shards` and `valid_shard = elapsed_days mod num_shards` (daily) or
`valid_shard = (elapsed_days div 7) mod num_shards` (weekly), where
`elapsed_days = (start_time − base_time) // 60 // 60 // 24` is derived only
from the two instants — the computation is a pure function of
`(base_time, now, num_shards, cadence)`, with no persisted counter. -/
theorem C7_shard_determinism (data : ScheduleData) (start_time : Int)
    (sched : Schedule) (i : Nat) (hi : i < data.schemas.length)
    (sd : ShardingData)
    (h : Schedule.from_data data start_time = Except.ok sched)
    (hsh : (data.schemas.get ⟨i, hi⟩).schedule.sharding = some sd) :
    ∃ hj : i < sched.schemas.length,
      (sched.schemas.get ⟨i, hj⟩).schedule.sharding = some
        ⟨sd.num_shards,
          if (sched.schemas.get ⟨i, hj⟩).schedule.repeats = RepeatSetting.DAILY
          then pyMod (elapsedDaysAt data.base_time start_time) sd.num_shards
          else pyMod (pyFloorDiv (elapsedDaysAt data.base_time start_time) 7)
            sd.num_shards⟩ := by
  unfold Schedule.from_data at h
  cases h1 : checkExcludedDays data.excluded_days with
  | error e2 => rw [h1] at h; cases h
  | ok u =>
      rw [h1] at h
      cases h2 : schemasFromData data.schemas
          (elapsedDaysAt data.base_time start_time) with
      | error e2 => rw [h2] at h; cases h
      | ok ss =>
          rw [h2] at h
          injection h with h3
          subst h3
          rcases schemasFromData_pointwise _ _ _ h2 with ⟨hlen, hpt⟩
          have hj : i < ss.length := by omega
          refine ⟨hj, ?_⟩
          have h4 := scheduled_from_data_schedule _ _ _ (hpt i hi hj)
          exact settings_from_data_shard _ _ _ sd h4 hsh

/-- Witness for C7: one weekly schema with 4 shards, 10 days after base:
`valid_shard = (10 div 7) mod 4 = 1`. -/
theorem C7_shard_determinism_witness :
    ∃ hj : 0 < (Schedule.mk 0 []
        [⟨SchemaType.FILE, "s.json",
          ⟨RepeatSetting.WEEKLY, 3, some 2, some ⟨4, 1⟩⟩⟩]).schemas.length,
      ((Schedule.mk 0 []
          [⟨SchemaType.FILE, "s.json",
            ⟨RepeatSetting.WEEKLY, 3, some 2, some ⟨4, 1⟩⟩⟩]).schemas.get
        ⟨0, hj⟩).schedule.sharding = some
        ⟨(4 : Int),
          if ((Schedule.mk 0 []
              [⟨SchemaType.FILE, "s.json",
                ⟨RepeatSetting.WEEKLY, 3, some 2, some ⟨4, 1⟩⟩⟩]).schemas.get
            ⟨0, hj⟩).schedule.repeats = RepeatSetting.DAILY
          then pyMod (elapsedDaysAt 0 864000) 4
          else pyMod (pyFloorDiv (elapsedDaysAt 0 864000) 7) 4⟩ :=
  C7_shard_determinism
    ⟨0, [], [⟨"file", "s.json", ⟨"weekly", 3, some 2, some ⟨4⟩⟩⟩]⟩
    864000
    ⟨0, [], [⟨SchemaType.FILE, "s.json",
      ⟨RepeatSetting.WEEKLY, 3, some 2, some ⟨4, 1⟩⟩⟩]⟩
    0 (by decide) ⟨4⟩ (by rfl) rfl

/-- C8 (counterexample): one second before the base instant, the code's
truncating `int(elapsed / 60 / 60)` yields hour 0 of day 0, while the claimed
floor decomposition yields hour 23 of day 6 of week −1 — the two disagree for
`now < base_time`. -/
theorem C8_truncation_counterexample :
    timeDecomp (0 - 1) = (0, 0, 0, 0) ∧
    specTimeDecomp (0 - 1) = (-1, 23, -1, 6) ∧
    timeDecomp (0 - 1) ≠ specTimeDecomp (0 - 1) := by
  refine ⟨by decide, by decide, by decide⟩

/-- C8 (amended): the run's decomposition truncates `elapsed / 3600` toward
zero, which agrees with the claimed floor decomposition whenever
`now ≥ base_time`; the floor-based `divmod` chain is as claimed, and in
Scenario A (`now = base_time + 25h`) it gives `elapsed_days = 1`,
`hour_of_day = 1`, `day_of_week = 1`, with a daily schedule at hour 1 due
regardless of the day of week. -/
theorem C8_time_decomposition (base_time now : Int) (h : base_time ≤ now) :
    timeDecomp (now - base_time) = specTimeDecomp (now - base_time) ∧
    timeDecomp (25 * 3600) = (1, 1, 0, 1) ∧
    ∀ d : Int,
      SchemaScheduleSettings.should_run ⟨RepeatSetting.DAILY, 1, none, none⟩ 1 d
        = true := by
  refine ⟨?_, by decide, fun d => rfl⟩
  unfold timeDecomp specTimeDecomp pyFloorDiv
  have he : (0 : Int) ≤ now - base_time := by omega
  have ht : Int.tdiv (now - base_time) 3600 = Int.fdiv (now - base_time) 3600 := by
    rw [Int.tdiv_eq_ediv he (by norm_num), Int.fdiv_eq_ediv _ (by norm_num)]
  rw [ht]

/-- Witness for C8 (amended): 25 hours after the base instant the two
decompositions agree. -/
theorem C8_time_decomposition_witness :
    (0 : Int) ≤ 90000 ∧ timeDecomp (90000 - 0) = specTimeDecomp (90000 - 0) :=
  ⟨by decide, (C8_time_decomposition 0 90000 (by decide)).1⟩

/-- C10: a weekly settings datum with no `day_of_week` passes every check in
`from_data` — construction succeeds — yet the resulting settings'
`should_run` is false for every hour and every day (`None == day` is false in
Python), so the schema is accepted but never dispatched. -/
theorem C10_weekly_without_day (d : ScheduleSettingsData) (e : Int)
    (hrep : d.repeats = "weekly") (hdow : d.day_of_week = none)
    (hhour : 0 ≤ d.hour_of_day ∧ d.hour_of_day < 24)
    (hshard : ∀ sd, d.sharding = some sd → sd.num_shards ≠ 0) :
    ∃ s, SchemaScheduleSettings.from_data d e = Except.ok s ∧
      s.repeats = RepeatSetting.WEEKLY ∧ s.day_of_week = none ∧
      ∀ hour day : Int, s.should_run hour day = false := by
  have hpr : parseRepeats d.repeats = Except.ok RepeatSetting.WEEKLY := by
    rw [hrep]
    rfl
  unfold SchemaScheduleSettings.from_data
  rw [hpr]
  dsimp only
  rw [if_pos hhour, hdow]
  dsimp only [checkDay]
  cases hs : d.sharding with
  | none =>
      refine ⟨⟨RepeatSetting.WEEKLY, d.hour_of_day, none, none⟩, rfl, rfl, rfl, ?_⟩
      intro hour day
      simp [SchemaScheduleSettings.should_run]
  | some sd =>
      have hns : ¬ sd.num_shards = 0 := hshard sd hs
      unfold mkSharding
      dsimp only
      rw [if_neg hns]
      refine ⟨⟨RepeatSetting.WEEKLY, d.hour_of_day, none,
        some ⟨sd.num_shards,
          if RepeatSetting.WEEKLY = RepeatSetting.DAILY then pyMod e sd.num_shards
          else pyMod (pyFloorDiv e 7) sd.num_shards⟩⟩, rfl, rfl, rfl, ?_⟩
      intro hour day
      simp [SchemaScheduleSettings.should_run]

/-- Witness for C10: a concrete weekly datum without a day is accepted and
never due. -/
theorem C10_weekly_without_day_witness :
    ∃ s, SchemaScheduleSettings.from_data ⟨"weekly", 5, none, none⟩ 0 =
        Except.ok s ∧
      s.repeats = RepeatSetting.WEEKLY ∧ s.day_of_week = none ∧
      ∀ hour day : Int, s.should_run hour day = false :=
  C10_weekly_without_day ⟨"weekly", 5, none, none⟩ 0 rfl rfl (by decide)
    (fun sd h => by cases h)

end AutoTransform